import Mathlib

/-!
Verification of the top-questions report pipeline: a shallow embedding of
the repository's cluster engine, aggregator, report store and submission
handler, with theorems settling the specified properties.

Numeric modelling: token counts are natural numbers; the estimated dollar
cost is an exact rational (the source's floating-point arithmetic is
modelled by exact arithmetic). Timestamps are abstract instants modelled
as natural numbers ordered by ≤.
-/

namespace TopQuestions

/-- A clustered question with its occurrence count (src/types: QuestionFrequency). -/
@[ext]
structure QuestionFrequency where
  question : String
  count : Nat
deriving DecidableEq, Repr

/-- Token/cost accounting record (src/types: ClusteringResult.usage). -/
@[ext]
structure UsageAccount where
  prompt_tokens : Nat
  completion_tokens : Nat
  total_tokens : Nat
  estimated_cost_usd : ℚ
deriving DecidableEq, Repr

def zeroUsage : UsageAccount := ⟨0, 0, 0, 0⟩

/-- Result of clustering one batch, or of the whole aggregation (src/types: ClusteringResult). -/
@[ext]
structure ClusteringResult where
  questions : List QuestionFrequency
  usage : UsageAccount
deriving DecidableEq, Repr

/-- GPT-4o pricing per 1k tokens (src/index.ts GPT_PRICING). -/
def prompt_per_1k : ℚ := 3 / 100

def completion_per_1k : ℚ := 6 / 100

/-- Lexicographic comparison of character sequences, the model of the
string comparison used by localeCompare in the sort tie-break. -/
def lexLe : List Char → List Char → Bool
  | [], _ => true
  | _ :: _, [] => false
  | a :: as, b :: bs =>
    if a < b then true
    else if b < a then false
    else lexLe as bs

/-- Question-text order used for tie-breaking. -/
def strLe (a b : String) : Prop :=
  lexLe a.data b.data = true

instance : DecidableRel strLe := fun a b =>
  inferInstanceAs (Decidable (lexLe a.data b.data = true))

/-- The comparator used by both sort sites in src/index.ts:
count descending, ties broken by ascending question text. -/
def qle (a b : QuestionFrequency) : Prop :=
  b.count < a.count ∨ (a.count = b.count ∧ strLe a.question b.question)

instance : DecidableRel qle := fun a b =>
  inferInstanceAs (Decidable (b.count < a.count ∨ (a.count = b.count ∧ strLe a.question b.question)))

instance : IsTotal QuestionFrequency qle := by
  have htot : ∀ x y : List Char, lexLe x y = true ∨ lexLe y x = true := by
    intro x
    induction x with
    | nil => intro y; exact Or.inl rfl
    | cons a as ih =>
      intro y
      cases y with
      | nil => exact Or.inr rfl
      | cons b bs =>
        rcases lt_trichotomy a b with h | h | h
        · left
          simp [lexLe, h]
        · subst h
          rcases ih bs with h' | h'
          · left
            simp [lexLe, lt_irrefl, h']
          · right
            simp [lexLe, lt_irrefl, h']
        · right
          simp [lexLe, h]
  constructor
  intro a b
  rcases Nat.lt_trichotomy a.count b.count with h | h | h
  · exact Or.inr (Or.inl h)
  · rcases htot a.question.data b.question.data with hq | hq
    · exact Or.inl (Or.inr ⟨h, hq⟩)
    · exact Or.inr (Or.inr ⟨h.symm, hq⟩)
  · exact Or.inl (Or.inl h)

instance : IsTrans QuestionFrequency qle := by
  have htr : ∀ x y z : List Char, lexLe x y = true → lexLe y z = true → lexLe x z = true := by
    intro x
    induction x with
    | nil => intro y z _ _; rfl
    | cons a as ih =>
      intro y z hxy hyz
      cases y with
      | nil => simp [lexLe] at hxy
      | cons b bs =>
        cases z with
        | nil => simp [lexLe] at hyz
        | cons c cs =>
          by_cases hab : a < b
          · by_cases hbc : b < c
            · simp [lexLe, lt_trans hab hbc]
            · by_cases hcb : c < b
              · simp only [lexLe, hbc, hcb, if_true, if_false] at hyz
                exact absurd hyz (by simp)
              · have hbcq : b = c := le_antisymm (not_lt.mp hcb) (not_lt.mp hbc)
                subst hbcq
                simp [lexLe, hab]
          · by_cases hba : b < a
            · simp only [lexLe, hab, hba, if_true, if_false] at hxy
              exact absurd hxy (by simp)
            · have habq : a = b := le_antisymm (not_lt.mp hba) (not_lt.mp hab)
              subst habq
              simp only [lexLe, lt_irrefl, if_false] at hxy
              by_cases hbc : a < c
              · simp [lexLe, hbc]
              · by_cases hcb : c < a
                · simp only [lexLe, hbc, hcb, if_true, if_false] at hyz
                  exact absurd hyz (by simp)
                · have : a = c := le_antisymm (not_lt.mp hcb) (not_lt.mp hbc)
                  subst this
                  simp only [lexLe, lt_irrefl, if_false] at hyz ⊢
                  exact ih bs cs hxy hyz
  constructor
  intro a b c hab hbc
  rcases hab with h1 | ⟨h1, h1q⟩
  · rcases hbc with h2 | ⟨h2, _⟩
    · exact Or.inl (h2.trans h1)
    · exact Or.inl (h2 ▸ h1)
  · rcases hbc with h2 | ⟨h2, h2q⟩
    · exact Or.inl (h1 ▸ h2)
    · exact Or.inr ⟨h1.trans h2, htr _ _ _ h1q h2q⟩

instance : IsAntisymm QuestionFrequency qle := by
  have hanti : ∀ x y : List Char, lexLe x y = true → lexLe y x = true → x = y := by
    intro x
    induction x with
    | nil =>
      intro y _ hyx
      cases y with
      | nil => rfl
      | cons b bs => simp [lexLe] at hyx
    | cons a as ih =>
      intro y hxy hyx
      cases y with
      | nil => simp [lexLe] at hxy
      | cons b bs =>
        by_cases hab : a < b
        · simp only [lexLe, hab, lt_asymm hab, if_true, if_false] at hyx
          exact absurd hyx (by simp)
        · by_cases hba : b < a
          · simp only [lexLe, hab, hba, if_true, if_false] at hxy
            exact absurd hxy (by simp)
          · have habq : a = b := le_antisymm (not_lt.mp hba) (not_lt.mp hab)
            subst habq
            simp only [lexLe, lt_irrefl, if_false] at hxy hyx
            rw [ih bs hxy hyx]
  constructor
  intro a b hab hba
  rcases hab with h1 | ⟨h1, h1q⟩
  · rcases hba with h2 | ⟨h2, _⟩
    · exact absurd (h1.trans h2) (lt_irrefl _)
    · exact absurd h1 (h2 ▸ lt_irrefl _)
  · rcases hba with h2 | ⟨h2, h2q⟩
    · exact absurd h2 (h1 ▸ lt_irrefl _)
    · have hq : a.question = b.question := congrArg String.mk (hanti _ _ h1q h2q)
      exact QuestionFrequency.ext hq h1

/-- Sort by count descending with lexicographic ascending tie-break, then
truncate: the post-processing applied at both sort sites in src/index.ts. -/
def sortTruncate (topN : Nat) (qs : List QuestionFrequency) : List QuestionFrequency :=
  (List.insertionSort qle qs).take topN

/-- Token usage reported by the chat completion call (response.usage). -/
structure ChatUsage where
  prompt_tokens : Nat
  completion_tokens : Nat
  total_tokens : Nat
deriving DecidableEq, Repr

/-- Outcome of reading and parsing the message content of the clustering
response in src/index.ts processDailyBatch: JSON.parse may throw, the
parsed object may lack the questions field (so that the later sort call
throws), or it may carry a list of clusters. -/
inductive ParsedContent
  | parseFailure
  | missingQuestions
  | clusters (qs : List QuestionFrequency)
deriving DecidableEq, Repr

/-- The observable part of the chat completion response consumed by
src/index.ts processDailyBatch: an optional message content (already
composed with its parse outcome) and an optional usage record. -/
structure ChatResponse where
  content : Option ParsedContent
  usage : Option ChatUsage
deriving DecidableEq, Repr

/-- src/index.ts processDailyBatch, as a function of the batch's questions
and of the external call's response. Empty input short-circuits with an
empty zero-usage result and no call. An absent message content returns an
empty zero-usage result. A JSON parse failure or a missing questions field
throws (modelled as Except.error). Otherwise the clusters are sorted by
count descending (ties by ascending text), truncated to topN, and usage is
read from the response (zero when absent) with the estimated cost computed
from the per-1k rates. -/
def processDailyBatch (topN : Nat) (questions : List String) (resp : ChatResponse) :
    Except String ClusteringResult :=
  if questions = [] then
    .ok ⟨[], zeroUsage⟩
  else
    match resp.content with
    | none => .ok ⟨[], zeroUsage⟩
    | some .parseFailure => .error "SyntaxError: unexpected token in JSON"
    | some .missingQuestions => .error "TypeError: cannot read properties of undefined"
    | some (.clusters qs) =>
      let usage := resp.usage.getD ⟨0, 0, 0⟩
      let estimated_cost_usd : ℚ :=
        (usage.prompt_tokens : ℚ) / 1000 * prompt_per_1k +
        (usage.completion_tokens : ℚ) / 1000 * completion_per_1k
      .ok ⟨sortTruncate topN qs,
           ⟨usage.prompt_tokens, usage.completion_tokens, usage.total_tokens,
            estimated_cost_usd⟩⟩

/-- Character-level model of toLowerCase: lower-case every character. -/
def jsToLower (s : String) : String := ⟨s.data.map Char.toLower⟩

/-- Character-level model of trim: drop whitespace from both ends. -/
def jsTrim (s : String) : String :=
  ⟨(((s.data.dropWhile Char.isWhitespace).reverse).dropWhile Char.isWhitespace).reverse⟩

/-- Case-fold and trim, the merge key used by src/index.ts combineResults. -/
def normalizeQ (s : String) : String := jsTrim (jsToLower s)

/-- One frequencyMap.set step of src/index.ts combineResults, with JS Map
semantics over an insertion-ordered association list: an existing key is
updated in place, a new key is appended at the end. -/
def bump : List (String × Nat) → String → Nat → List (String × Nat)
  | [], k, c => [(k, c)]
  | (k', c') :: rest, k, c =>
    if k' = k then (k', c' + c) :: rest else (k', c') :: bump rest k c

/-- The (normalized key, count) entries contributed by one batch result,
in the order src/index.ts combineResults visits them. -/
def entriesOf (r : ClusteringResult) : List (String × Nat) :=
  r.questions.map fun q => (normalizeQ q.question, q.count)

/-- All entries visited by the nested forEach loops of combineResults. -/
def allEntries (rs : List ClusteringResult) : List (String × Nat) :=
  (rs.map entriesOf).flatten

/-- One step of the frequency-map fold. -/
def bumpStep (m : List (String × Nat)) (e : String × Nat) : List (String × Nat) :=
  bump m e.1 e.2

/-- The frequency map built by src/index.ts combineResults, as an
insertion-ordered association list. -/
def buildMap (rs : List ClusteringResult) : List (String × Nat) :=
  (allEntries rs).foldl bumpStep []

/-- The usage fold of src/index.ts combineResults (reduce with a zero
initial accumulator, component-wise addition). -/
def combinedUsage (rs : List ClusteringResult) : UsageAccount :=
  rs.foldl
    (fun acc r =>
      ⟨acc.prompt_tokens + r.usage.prompt_tokens,
       acc.completion_tokens + r.usage.completion_tokens,
       acc.total_tokens + r.usage.total_tokens,
       acc.estimated_cost_usd + r.usage.estimated_cost_usd⟩)
    zeroUsage

/-- src/index.ts combineResults: merge per-batch questions by normalized
key into a frequency map, convert to a list, sort (count descending, ties
by ascending text), truncate to topN, and sum usage component-wise. -/
def combineResults (topN : Nat) (rs : List ClusteringResult) : ClusteringResult :=
  ⟨sortTruncate topN ((buildMap rs).map fun e => ⟨e.1, e.2⟩), combinedUsage rs⟩

/-- Report status column (src/db.ts Report.status). -/
inductive Status
  | pending
  | completed
  | failed
deriving DecidableEq, Repr

/-- A row of the reports table (src/db.ts Report). Timestamps are abstract
instants. -/
@[ext]
structure Report where
  id : String
  status : Status
  timeRange : String
  topCount : Nat
  result : Option ClusteringResult
  error : Option String
  createdAt : Nat
  updatedAt : Nat
deriving DecidableEq, Repr

/-- The reports table, in insertion order. -/
abbrev Store := List Report

/-- src/db.ts createReport: insert a fresh pending row with both
timestamps set to now, result and error unset, and return it. -/
def createReport (store : Store) (id timeRange : String) (topCount : Nat) (now : Nat) :
    Report × Store :=
  let report : Report := ⟨id, .pending, timeRange, topCount, none, none, now, now⟩
  (report, store ++ [report])

/-- The Partial Report update object accepted by src/db.ts updateReport. -/
structure ReportUpdate where
  status : Option Status := none
  result : Option ClusteringResult := none
  error : Option String := none
deriving DecidableEq, Repr

/-- The SET clause assembled by src/db.ts updateReport: each field is
written only when the update object's field is truthy (statuses and result
objects are truthy whenever present; an error string is truthy only when
non-empty), and updated_at is always refreshed. -/
def applyUpdate (u : ReportUpdate) (now : Nat) (r : Report) : Report :=
  { r with
    status := u.status.getD r.status
    result := match u.result with
      | some res => some res
      | none => r.result
    error := match u.error with
      | some e => if e = "" then r.error else some e
      | none => r.error
    updatedAt := now }

/-- src/db.ts updateReport: one SQL UPDATE ... WHERE id = ?. Rows with a
matching id receive the truthy fields of the update and a refreshed
updated_at; when no row matches, the statement affects zero rows and the
call still completes without error. -/
def updateReport (store : Store) (id : String) (u : ReportUpdate) (now : Nat) :
    Except String Store :=
  .ok (store.map fun r => if r.id = id then applyUpdate u now r else r)

/-- src/db.ts getReport: SELECT by primary key (first matching row). -/
def getReport (store : Store) (id : String) : Option Report :=
  store.find? fun r => r.id = id

/-- The response produced by the submission handler: either the JSON body
carrying the fresh report id, or the error response produced when the
handler throws into the error middleware. -/
inductive HandlerOutcome
  | accepted (reportId : String)
  | rejected (message : String)
deriving DecidableEq, Repr

/-- The error message thrown in src/server.ts analyzeHandler for each
non-success probe status. -/
def credentialErrorMessage (status : Nat) : String :=
  if status = 401 then "Invalid Voiceflow API key"
  else if status = 404 then "Invalid project ID"
  else "Failed to validate credentials"

/-- Whether an HTTP response is ok (status in the 2xx range). -/
def httpOk (status : Nat) : Prop := 200 ≤ status ∧ status < 300

instance : DecidablePred httpOk := fun s =>
  inferInstanceAs (Decidable (200 ≤ s ∧ s < 300))

/-- The synchronous phase of src/server.ts analyzeHandler, as a function
of the credential probe's HTTP status: the pending report row is created
first; then the probe response is inspected, and a non-success status
throws (producing the rejected response through the error middleware)
while a success status detaches the pipeline and responds with the report
id. In both cases the store already holds the freshly inserted row. -/
def analyzeHandler (store : Store) (reportId range : String) (topN : Nat)
    (probeStatus : Nat) (now : Nat) : HandlerOutcome × Store :=
  let created := createReport store reportId range topN now
  if httpOk probeStatus then
    (.accepted reportId, created.2)
  else
    (.rejected (credentialErrorMessage probeStatus), created.2)

/-- One turn of a transcript dialog, keeping the fields src/index.ts
consumes: the type tag, the optional timestamp and the optional
payload.payload.query text. -/
structure DialogTurn where
  type : String
  startTime : Option String := none
  query : Option String := none
deriving DecidableEq, Repr

/-- Truthiness of turn.payload?.payload?.query: present and non-empty. -/
def queryTruthy (t : DialogTurn) : Bool :=
  match t.query with
  | some s => !(s = "")
  | none => false

/-- src/index.ts extractTextFromDialog: keep request turns with a truthy
query, read each kept turn's query (with the empty-string fallback), and
join with single spaces. -/
def extractTextFromDialog (dialog : List DialogTurn) : String :=
  String.intercalate " "
    ((dialog.filter fun t => decide (t.type = "request") && queryTruthy t).map
      fun t => t.query.getD "")

/-- Modelled from the spec: the body of src/index.ts extractQuestions is
truncated in the source as given, so the sentence splitter (the external
natural.SentenceTokenizer) is abstracted as a parameter and the final
drop of empty or whitespace-only segments follows the spec's words. -/
def extractQuestions (tokenize : String → List String) (transcript : String) :
    List String :=
  (tokenize transcript).filter fun s => !(jsTrim s = "")

/-- The spec-side characterization of which text the extractor keeps: the
query of every turn of type request whose query payload is present and
non-empty, in turn order. -/
def keptQueries (dialog : List DialogTurn) : List String :=
  dialog.filterMap fun t =>
    match t.query with
    | some q => if t.type = "request" ∧ ¬ q = "" then some q else none
    | none => none

/-- The per-day batch loop of src/index.ts analyzeQuestions (server mode):
process each batch sequentially, abort on the first error, and keep only
the results whose clustered question list is non-empty. Each batch is a
pair of its questions and the clustering call's response. -/
def runDailyBatches (topN : Nat) :
    List (List String × ChatResponse) → Except String (List ClusteringResult)
  | [] => .ok []
  | (qs, resp) :: rest =>
    match processDailyBatch topN qs resp with
    | .error e => .error e
    | .ok r =>
      match runDailyBatches topN rest with
      | .error e => .error e
      | .ok rs => .ok (if r.questions.length > 0 then r :: rs else rs)

/-- The tail of src/index.ts analyzeQuestions for multi-day ranges: run
the daily batches and combine the retained results. -/
def analyzePipeline (topN : Nat) (batches : List (List String × ChatResponse)) :
    Except String ClusteringResult :=
  (runDailyBatches topN batches).map (combineResults topN)

/-- Component-wise sums of a list of usage accounts, the specification
shape for usage aggregation. -/
def usageSumSpec (rs : List ClusteringResult) : UsageAccount :=
  ⟨(rs.map fun r => r.usage.prompt_tokens).sum,
   (rs.map fun r => r.usage.completion_tokens).sum,
   (rs.map fun r => r.usage.total_tokens).sum,
   (rs.map fun r => r.usage.estimated_cost_usd).sum⟩

/-- Whether a status is terminal (completed or failed). -/
def Status.isTerminal : Status → Bool
  | .pending => false
  | .completed => true
  | .failed => true

/-- Exactly one of the result payload and the error message is set. -/
def exactlyOnePayload (r : Report) : Prop :=
  (r.result.isSome = true ∧ r.error = none) ∨ (r.result = none ∧ r.error.isSome = true)

instance (r : Report) : Decidable (exactlyOnePayload r) :=
  inferInstanceAs (Decidable (_ ∨ _))

/-- The two shapes of terminal update written by the orchestrator in
src/server.ts: completed with a result, or failed with a non-empty error
message. -/
def orchestratorUpdate (u : ReportUpdate) : Prop :=
  (u.status = some .completed ∧ u.result.isSome = true ∧ u.error = none) ∨
  (u.status = some .failed ∧ u.result = none ∧ ¬ u.error.getD "" = "")

instance (u : ReportUpdate) : Decidable (orchestratorUpdate u) :=
  inferInstanceAs (Decidable (_ ∨ _))

/-- Value stored under a key in the frequency map (0 when absent). -/
def valOf : List (String × Nat) → String → Nat
  | [], _ => 0
  | (k', c) :: rest, k => if k' = k then c else valOf rest k

/-- Total count contributed to a key by a sequence of entries: the sum of
the counts of all entries sharing that key. -/
def countSum (es : List (String × Nat)) (k : String) : Nat :=
  ((es.filter fun e => decide (e.1 = k)).map fun e => e.2).sum

/-- Keys of a frequency map have no duplicates. -/
def nodupKeys (m : List (String × Nat)) : Prop :=
  (m.map Prod.fst).Nodup

theorem applyUpdate_id (u : ReportUpdate) (now : Nat) (r : Report) :
    (applyUpdate u now r).id = r.id := rfl

theorem getReport_map_update (store : Store) (id : String) (u : ReportUpdate) (now : Nat) :
    getReport (store.map fun r => if r.id = id then applyUpdate u now r else r) id
      = (getReport store id).map (applyUpdate u now) := by
  induction store with
  | nil => rfl
  | cons r rest ih =>
    by_cases h : r.id = id
    · simp [getReport, List.find?_cons, h, applyUpdate_id]
    · simp only [List.map_cons, if_neg h]
      simpa [getReport, List.find?_cons, h] using ih

/-- C9 counterexample: on the empty store (so the id is absent), the
store's update operation completes successfully and leaves the store
unchanged instead of failing with a NotFound error. -/
theorem updateReport_absent_succeeds_cex :
    updateReport [] "missing" ⟨some .failed, none, some "boom"⟩ 5 = Except.ok [] ∧
    getReport [] "missing" = none :=
  ⟨rfl, rfl⟩

/-- C9 (amended): for every id absent from the report store, the update
operation succeeds while changing nothing: the UPDATE statement matches
zero rows and completes without error. -/
theorem updateReport_absent_id_noop (store : Store) (id : String) (u : ReportUpdate)
    (now : Nat) (h : ∀ r ∈ store, ¬ r.id = id) :
    updateReport store id u now = .ok store := by
  unfold updateReport
  congr 1
  induction store with
  | nil => rfl
  | cons r rest ih =>
    have hr : ¬ r.id = id := h r (List.mem_cons_self r rest)
    simp only [List.map_cons, if_neg hr]
    rw [ih fun x hx => h x (List.mem_cons_of_mem r hx)]

theorem updateReport_absent_id_noop_witness :
    (∀ r ∈ [(⟨"a", .pending, "t", 1, none, none, 0, 0⟩ : Report)], ¬ r.id = "b") ∧
    updateReport [⟨"a", .pending, "t", 1, none, none, 0, 0⟩] "b" ⟨some .failed, none, some "x"⟩ 3
      = Except.ok [⟨"a", .pending, "t", 1, none, none, 0, 0⟩] :=
  ⟨by decide, updateReport_absent_id_noop _ _ _ _ (by decide)⟩

/-- C10: the update operation writes only truthy fields. For every report
present in the store, an update carrying status failed together with an
empty-string error message sets the status and refreshes updated-at but
leaves the error column exactly as it was (unset for a pending report),
so the resulting failed report carries no error message. -/
theorem updateReport_skips_falsy_error (store : Store) (id : String) (now : Nat)
    (r : Report) (h : getReport store id = some r) :
    updateReport store id ⟨some .failed, none, some ""⟩ now
        = .ok (store.map fun x => if x.id = id then applyUpdate ⟨some .failed, none, some ""⟩ now x else x) ∧
    getReport (store.map fun x => if x.id = id then applyUpdate ⟨some .failed, none, some ""⟩ now x else x) id
        = some { r with status := Status.failed, updatedAt := now } := by
  refine ⟨rfl, ?_⟩
  rw [getReport_map_update, h]
  rfl

theorem updateReport_skips_falsy_error_witness :
    getReport [(⟨"r1", .pending, "last7", 10, none, none, 0, 0⟩ : Report)] "r1"
        = some ⟨"r1", .pending, "last7", 10, none, none, 0, 0⟩ ∧
    getReport
        ([(⟨"r1", .pending, "last7", 10, none, none, 0, 0⟩ : Report)].map fun x =>
          if x.id = "r1" then applyUpdate ⟨some .failed, none, some ""⟩ 7 x else x) "r1"
        = some ⟨"r1", .failed, "last7", 10, none, none, 0, 7⟩ :=
  ⟨rfl,
    (updateReport_skips_falsy_error [⟨"r1", .pending, "last7", 10, none, none, 0, 0⟩] "r1" 7
      ⟨"r1", .pending, "last7", 10, none, none, 0, 0⟩ rfl).2⟩

/-- C7 counterexample: create a report, then update it with status failed
and an empty-string error message (as the orchestrator does when a thrown
error has an empty message). The resulting report is terminal yet carries
neither a result nor an error, violating the exactly-one-payload claim. -/
theorem report_payload_invariant_cex :
    updateReport (createReport [] "r1" "last7" 10 0).2 "r1" ⟨some .failed, none, some ""⟩ 1
        = Except.ok [⟨"r1", .failed, "last7", 10, none, none, 0, 1⟩] ∧
    Status.isTerminal .failed = true ∧
    ¬ exactlyOnePayload ⟨"r1", .failed, "last7", 10, none, none, 0, 1⟩ :=
  ⟨rfl, rfl, by decide⟩

/-- C7 (amended): for every report reachable through create followed by at
most one well-formed terminal update (one whose payload is a result for
status completed, or a non-empty error message for status failed, matching
the two update shapes the orchestrator writes), updatedAt ≥ createdAt
always holds, a pending (freshly created) report carries neither result
nor error, and the updated report is terminal and carries exactly one of
result or error. -/
theorem report_lifecycle_invariant (id timeRange : String) (topCount t1 t2 : Nat)
    (u : ReportUpdate) (hle : t1 ≤ t2) (hu : orchestratorUpdate u) :
    ((createReport [] id timeRange topCount t1).1.status = .pending ∧
     (createReport [] id timeRange topCount t1).1.result = none ∧
     (createReport [] id timeRange topCount t1).1.error = none ∧
     (createReport [] id timeRange topCount t1).1.createdAt
        ≤ (createReport [] id timeRange topCount t1).1.updatedAt) ∧
    ∀ s2 r, updateReport (createReport [] id timeRange topCount t1).2 id u t2 = .ok s2 →
      getReport s2 id = some r →
      r.createdAt ≤ r.updatedAt ∧ r.status.isTerminal = true ∧ exactlyOnePayload r := by
  refine ⟨⟨rfl, rfl, rfl, le_refl _⟩, ?_⟩
  intro s2 r hupd hget
  have hs2 : s2 = [applyUpdate u t2 ⟨id, .pending, timeRange, topCount, none, none, t1, t1⟩] := by
    have := hupd
    unfold updateReport createReport at this
    simp only [List.map_cons, List.map_nil, List.nil_append, Except.ok.injEq] at this
    rw [← this]
    simp
  subst hs2
  have hr : r = applyUpdate u t2 ⟨id, .pending, timeRange, topCount, none, none, t1, t1⟩ := by
    unfold getReport at hget
    rw [List.find?_cons_of_pos] at hget
    · exact (Option.some.injEq _ _).mp hget.symm ▸ (Option.some.inj hget).symm
    · simp [applyUpdate_id]
  subst hr
  obtain ⟨us, ur, ue⟩ := u
  rcases hu with ⟨hs, hres, herr⟩ | ⟨hs, hres, herr⟩
  · simp only at hs hres herr
    subst hs
    subst herr
    obtain ⟨res, hres'⟩ := Option.isSome_iff_exists.mp hres
    subst hres'
    exact ⟨hle, rfl, Or.inl ⟨rfl, rfl⟩⟩
  · simp only at hs hres herr
    subst hs
    subst hres
    cases ue with
    | none => simp at herr
    | some e =>
      have he : ¬ e = "" := by simpa using herr
      refine ⟨hle, rfl, Or.inr ⟨rfl, ?_⟩⟩
      simp [applyUpdate, if_neg he]

theorem report_lifecycle_invariant_witness :
    ((0 : Nat) ≤ 1 ∧ orchestratorUpdate ⟨some .completed, some ⟨[], zeroUsage⟩, none⟩) ∧
    ((⟨"r", .completed, "today", 5, some ⟨[], zeroUsage⟩, none, 0, 1⟩ : Report).createdAt
        ≤ (⟨"r", .completed, "today", 5, some ⟨[], zeroUsage⟩, none, 0, 1⟩ : Report).updatedAt ∧
     (⟨"r", .completed, "today", 5, some ⟨[], zeroUsage⟩, none, 0, 1⟩ : Report).status.isTerminal = true ∧
     exactlyOnePayload ⟨"r", .completed, "today", 5, some ⟨[], zeroUsage⟩, none, 0, 1⟩) :=
  ⟨⟨by decide, Or.inl ⟨rfl, rfl, rfl⟩⟩,
    (report_lifecycle_invariant "r" "today" 5 0 1 ⟨some .completed, some ⟨[], zeroUsage⟩, none⟩
        (by decide) (Or.inl ⟨rfl, rfl, rfl⟩)).2
      [⟨"r", .completed, "today", 5, some ⟨[], zeroUsage⟩, none, 0, 1⟩]
      ⟨"r", .completed, "today", 5, some ⟨[], zeroUsage⟩, none, 0, 1⟩ rfl rfl⟩

/-- C1 counterexample: on a failing credential probe (status 401) the
submission is rejected synchronously with no report id, yet the store now
holds a pending report row for the submission's id, because the handler
creates the row before probing the credentials. -/
theorem analyzeHandler_creates_row_cex :
    ¬ httpOk 401 ∧
    analyzeHandler [] "rid" "last7" 10 401 0
        = (.rejected "Invalid Voiceflow API key",
           [⟨"rid", .pending, "last7", 10, none, none, 0, 0⟩]) ∧
    ¬ getReport (analyzeHandler [] "rid" "last7" 10 401 0).2 "rid" = none :=
  ⟨by decide, rfl, by decide⟩

/-- C1 (amended): for every submission whose credential probe fails, the
submission fails synchronously — the caller receives the credential error
response and never a report id — but a pending report row for the
submission's id has already been inserted before the probe and remains in
the store. -/
theorem analyzeHandler_failed_probe (store : Store) (reportId range : String)
    (topN probeStatus now : Nat) (hfail : ¬ httpOk probeStatus)
    (hfresh : ∀ r ∈ store, ¬ r.id = reportId) :
    (analyzeHandler store reportId range topN probeStatus now).1
        = .rejected (credentialErrorMessage probeStatus) ∧
    (∀ s, ¬ (analyzeHandler store reportId range topN probeStatus now).1 = .accepted s) ∧
    getReport (analyzeHandler store reportId range topN probeStatus now).2 reportId
        = some ⟨reportId, .pending, range, topN, none, none, now, now⟩ := by
  have h1 : (analyzeHandler store reportId range topN probeStatus now).1
      = .rejected (credentialErrorMessage probeStatus) := by
    unfold analyzeHandler
    rw [if_neg hfail]
  refine ⟨h1, ?_, ?_⟩
  · intro s hs
    rw [h1] at hs
    exact HandlerOutcome.noConfusion hs
  · have h2 : (analyzeHandler store reportId range topN probeStatus now).2
        = store ++ [⟨reportId, .pending, range, topN, none, none, now, now⟩] := by
      unfold analyzeHandler createReport
      by_cases h : httpOk probeStatus
      · exact absurd h hfail
      · rw [if_neg hfail]
    rw [h2]
    unfold getReport
    rw [List.find?_append]
    have hnone : store.find? (fun r => r.id = reportId) = none := by
      rw [List.find?_eq_none]
      intro x hx
      simpa using hfresh x hx
    rw [hnone]
    simp

theorem analyzeHandler_failed_probe_witness :
    (¬ httpOk 503 ∧ ∀ r ∈ ([] : Store), ¬ r.id = "rid") ∧
    getReport (analyzeHandler [] "rid" "today" 5 503 2).2 "rid"
        = some ⟨"rid", .pending, "today", 5, none, none, 2, 2⟩ :=
  ⟨⟨by decide, by decide⟩,
    (analyzeHandler_failed_probe [] "rid" "today" 5 503 2 (by decide) (by decide)).2.2⟩

/-- C2 counterexample: a non-empty batch whose clustering response has an
absent message content yields a successful empty result with zero usage —
the absence is silently converted into a non-error result, not raised as
an error. -/
theorem processDailyBatch_silent_empty_cex :
    ¬ (["q"] = ([] : List String)) ∧
    processDailyBatch 10 ["q"] ⟨none, some ⟨5, 7, 12⟩⟩ = Except.ok ⟨[], zeroUsage⟩ :=
  ⟨by decide, rfl⟩

/-- C2 (amended): for every non-empty batch, a JSON parse failure or a
missing questions field in the clustering response raises an error that
propagates out of the batch-processing function and aborts the whole
batch loop; an absent message content, however, is silently converted
into an empty success result with zero usage. -/
theorem processDailyBatch_parse_failures (topN : Nat) (qs : List String)
    (resp : ChatResponse) (hne : ¬ qs = []) :
    ((resp.content = some .parseFailure ∨ resp.content = some .missingQuestions) →
      (∃ e, processDailyBatch topN qs resp = .error e) ∧
      ∀ bs, ∃ e, runDailyBatches topN ((qs, resp) :: bs) = .error e) ∧
    (resp.content = none → processDailyBatch topN qs resp = .ok ⟨[], zeroUsage⟩) := by
  constructor
  · intro hbad
    have herr : ∃ e, processDailyBatch topN qs resp = .error e := by
      rcases hbad with h | h <;>
        · unfold processDailyBatch
          rw [if_neg hne, h]
          exact ⟨_, rfl⟩
    obtain ⟨e, he⟩ := herr
    refine ⟨⟨e, he⟩, ?_⟩
    intro bs
    refine ⟨e, ?_⟩
    unfold runDailyBatches
    rw [he]
  · intro hnone
    unfold processDailyBatch
    rw [if_neg hne, hnone]

theorem processDailyBatch_parse_failures_witness :
    ¬ (["q"] = ([] : List String)) ∧
    (∃ e, processDailyBatch 10 ["q"] ⟨some .parseFailure, none⟩ = .error e) ∧
    (∃ e, runDailyBatches 10 [(["q"], ⟨some .parseFailure, none⟩)] = .error e) :=
  ⟨by decide,
    ((processDailyBatch_parse_failures 10 ["q"] ⟨some .parseFailure, none⟩ (by decide)).1
      (Or.inl rfl)).1,
    ((processDailyBatch_parse_failures 10 ["q"] ⟨some .parseFailure, none⟩ (by decide)).1
      (Or.inl rfl)).2 []⟩

theorem keptQueries_eq (dialog : List DialogTurn) :
    ((dialog.filter fun t => decide (t.type = "request") && queryTruthy t).map
        fun t => t.query.getD "") = keptQueries dialog := by
  rw [← List.filterMap_eq_map, List.filterMap_filter]
  unfold keptQueries
  congr 1
  funext t
  cases hq : t.query with
  | none => simp [queryTruthy, hq]
  | some q =>
    by_cases htype : t.type = "request"
    · by_cases hqe : q = "" <;> simp [queryTruthy, hq, htype, hqe, Function.comp]
    · simp [queryTruthy, hq, htype, Function.comp]

/-- C8: the question extractor keeps exactly the turns of type request
carrying a non-empty query payload, joins their text in turn order with a
single separating space, hands the concatenation to the sentence splitter,
and drops every segment that is empty or whitespace-only. The splitter
itself (the external sentence tokenizer) is abstract; the drop of blank
segments is modelled from the spec because the body of extractQuestions is
truncated in the source. -/
theorem extractor_keeps_requests (dialog : List DialogTurn) (tokenize : String → List String) :
    extractTextFromDialog dialog = String.intercalate " " (keptQueries dialog) ∧
    extractQuestions tokenize (extractTextFromDialog dialog)
        = (tokenize (String.intercalate " " (keptQueries dialog))).filter
            (fun s => !(jsTrim s = "")) ∧
    (extractQuestions tokenize (extractTextFromDialog dialog)).all
        (fun s => !(jsTrim s = "")) = true := by
  have h1 : extractTextFromDialog dialog = String.intercalate " " (keptQueries dialog) := by
    unfold extractTextFromDialog
    rw [keptQueries_eq]
  refine ⟨h1, ?_, ?_⟩
  · unfold extractQuestions
    rw [h1]
  · rw [List.all_eq_true]
    intro s hs
    exact (List.mem_filter.mp hs).2

theorem sortTruncate_sorted (topN : Nat) (l : List QuestionFrequency) :
    List.Sorted qle (sortTruncate topN l) :=
  List.Pairwise.sublist (List.take_sublist _ _) (List.sorted_insertionSort qle l)

theorem sortTruncate_length (topN : Nat) (l : List QuestionFrequency) :
    (sortTruncate topN l).length ≤ topN := by
  unfold sortTruncate
  rw [List.length_take]
  exact min_le_left _ _

/-- C4: every result the cluster engine returns, and every aggregated
result, has a question list of length at most topN, sorted by count
descending with ties broken by ascending question text; the ordering and
truncation are applied both per batch and again by the aggregator. -/
theorem results_sorted_truncated :
    (∀ (topN : Nat) (qs : List String) (resp : ChatResponse) (r : ClusteringResult),
        processDailyBatch topN qs resp = .ok r →
        List.Sorted qle r.questions ∧ r.questions.length ≤ topN) ∧
    (∀ (topN : Nat) (rs : List ClusteringResult),
        List.Sorted qle (combineResults topN rs).questions ∧
        (combineResults topN rs).questions.length ≤ topN) := by
  constructor
  · intro topN qs resp r h
    unfold processDailyBatch at h
    split at h
    · cases h
      exact ⟨List.sorted_nil, Nat.zero_le _⟩
    · split at h
      · cases h
        exact ⟨List.sorted_nil, Nat.zero_le _⟩
      · cases h
      · cases h
      · cases h
        exact ⟨sortTruncate_sorted _ _, sortTruncate_length _ _⟩
  · intro topN rs
    exact ⟨sortTruncate_sorted _ _, sortTruncate_length _ _⟩

theorem results_sorted_truncated_witness :
    processDailyBatch 10 [] ⟨none, none⟩ = Except.ok ⟨[], zeroUsage⟩ ∧
    (List.Sorted qle (⟨[], zeroUsage⟩ : ClusteringResult).questions ∧
     (⟨[], zeroUsage⟩ : ClusteringResult).questions.length ≤ 10) :=
  ⟨rfl, results_sorted_truncated.1 10 [] ⟨none, none⟩ ⟨[], zeroUsage⟩ rfl⟩

theorem valOf_bump (m : List (String × Nat)) (k0 k : String) (c0 : Nat) :
    valOf (bump m k0 c0) k = valOf m k + (if k0 = k then c0 else 0) := by
  induction m with
  | nil =>
    by_cases h : k0 = k <;> simp [bump, valOf, h]
  | cons e rest ih =>
    obtain ⟨k', c'⟩ := e
    by_cases h : k' = k0
    · subst h
      by_cases hk : k' = k
      · subst hk
        simp [bump, valOf]
      · simp [bump, valOf, hk]
    · by_cases hk : k' = k
      · subst hk
        have : ¬ k0 = k' := fun he => h he.symm
        simp [bump, valOf, h, this]
      · simp [bump, valOf, h, hk, ih]

theorem countSum_cons (k0 k : String) (c0 : Nat) (es : List (String × Nat)) :
    countSum ((k0, c0) :: es) k = (if k0 = k then c0 else 0) + countSum es k := by
  unfold countSum
  rw [List.filter_cons]
  by_cases h : k0 = k <;> simp [h]

theorem foldl_bump_valOf (es : List (String × Nat)) (m : List (String × Nat)) (k : String) :
    valOf (es.foldl bumpStep m) k = valOf m k + countSum es k := by
  induction es generalizing m with
  | nil => simp [countSum]
  | cons e rest ih =>
    obtain ⟨k0, c0⟩ := e
    rw [List.foldl_cons]
    have hstep : bumpStep m (k0, c0) = bump m k0 c0 := rfl
    rw [hstep, ih, valOf_bump, countSum_cons]
    omega

/-- C5: the aggregator merges per-batch frequencies by the case-folded,
trimmed form of each question, sums counts sharing a normalized key, and
displays the normalized form: aggregating two batches with (a, 3) and
(A-space, 2) yields the single entry (a, 5); in general the merged map
assigns each key the sum of the counts of every entry sharing it. -/
theorem aggregator_merges_normalized :
    combineResults 10 [⟨[⟨"a", 3⟩], zeroUsage⟩, ⟨[⟨"A ", 2⟩], zeroUsage⟩]
        = ⟨[⟨"a", 5⟩], zeroUsage⟩ ∧
    ∀ (rs : List ClusteringResult) (k : String),
      valOf (buildMap rs) k = countSum (allEntries rs) k := by
  constructor
  · refine ClusteringResult.ext (by decide) ?_
    simp [combineResults, combinedUsage, zeroUsage]
  · intro rs k
    unfold buildMap
    rw [foldl_bump_valOf]
    simp [valOf]

theorem combinedUsage_foldl (rs : List ClusteringResult) (acc : UsageAccount) :
    rs.foldl (fun acc r =>
      (⟨acc.prompt_tokens + r.usage.prompt_tokens,
        acc.completion_tokens + r.usage.completion_tokens,
        acc.total_tokens + r.usage.total_tokens,
        acc.estimated_cost_usd + r.usage.estimated_cost_usd⟩ : UsageAccount)) acc
    = ⟨acc.prompt_tokens + (usageSumSpec rs).prompt_tokens,
       acc.completion_tokens + (usageSumSpec rs).completion_tokens,
       acc.total_tokens + (usageSumSpec rs).total_tokens,
       acc.estimated_cost_usd + (usageSumSpec rs).estimated_cost_usd⟩ := by
  induction rs generalizing acc with
  | nil => simp [usageSumSpec]
  | cons r rest ih =>
    rw [List.foldl_cons, ih]
    simp only [usageSumSpec, List.map_cons, List.sum_cons, UsageAccount.mk.injEq]
    refine ⟨by omega, by omega, by omega, by ring⟩

theorem combinedUsage_eq_sum (rs : List ClusteringResult) :
    combinedUsage rs = usageSumSpec rs := by
  unfold combinedUsage
  rw [combinedUsage_foldl]
  simp [zeroUsage]

theorem runDailyBatches_kept (topN : Nat) (bs : List (List String × ChatResponse))
    (rs : List ClusteringResult) (h : runDailyBatches topN bs = .ok rs) :
    ∀ r ∈ rs, ¬ r.questions = [] := by
  induction bs generalizing rs with
  | nil =>
    unfold runDailyBatches at h
    cases h
    intro r hr
    exact absurd hr (List.not_mem_nil r)
  | cons b rest ih =>
    obtain ⟨qs, resp⟩ := b
    unfold runDailyBatches at h
    cases hp : processDailyBatch topN qs resp with
    | error e => rw [hp] at h; cases h
    | ok r0 =>
      rw [hp] at h
      cases hrest : runDailyBatches topN rest with
      | error e => rw [hrest] at h; cases h
      | ok rs' =>
        rw [hrest] at h
        cases h
        by_cases hlen : r0.questions.length > 0
        · rw [if_pos hlen]
          intro r hr
          rcases List.mem_cons.mp hr with hr0 | hr'
          · subst hr0
            intro hnil
            rw [hnil] at hlen
            exact absurd hlen (by simp)
          · exact ih rs' hrest r hr'
        · rw [if_neg hlen]
          exact ih rs' hrest

/-- C3 counterexample: a job whose single batch yields an empty clustered
question list with non-zero usage produces a final aggregated result whose
usage is zero, not the component-wise sum over every batch processed: the
batch's usage is dropped because empty-question results are filtered out
before aggregation. -/
theorem dropped_usage_cex :
    processDailyBatch 10 ["q"] ⟨some (.clusters []), some ⟨1, 2, 3⟩⟩
        = Except.ok ⟨[], ⟨1, 2, 3,
            ((1 : ℕ) : ℚ)/1000 * prompt_per_1k + ((2 : ℕ) : ℚ)/1000 * completion_per_1k⟩⟩ ∧
    analyzePipeline 10 [(["q"], ⟨some (.clusters []), some ⟨1, 2, 3⟩⟩)]
        = Except.ok ⟨[], zeroUsage⟩ ∧
    ¬ (zeroUsage = (⟨1, 2, 3,
            ((1 : ℕ) : ℚ)/1000 * prompt_per_1k + ((2 : ℕ) : ℚ)/1000 * completion_per_1k⟩ :
          UsageAccount)) :=
  ⟨rfl, rfl, by simp [zeroUsage, UsageAccount.mk.injEq]⟩

/-- C3 (amended): the usage of the final aggregated result equals the
component-wise sum (prompt, completion, total tokens and estimated cost)
of the usage accounts of the batches whose clustered question list is
non-empty; batches whose clustered question list is empty are filtered out
of the aggregation, usage included. -/
theorem final_usage_sums_kept_batches (topN : Nat)
    (batches : List (List String × ChatResponse)) (rs : List ClusteringResult)
    (h : runDailyBatches topN batches = .ok rs) :
    analyzePipeline topN batches = .ok (combineResults topN rs) ∧
    (combineResults topN rs).usage = usageSumSpec rs ∧
    ∀ r ∈ rs, ¬ r.questions = [] := by
  refine ⟨?_, ?_, runDailyBatches_kept topN batches rs h⟩
  · unfold analyzePipeline
    rw [h]
    rfl
  · exact combinedUsage_eq_sum rs

theorem final_usage_sums_kept_batches_witness :
    runDailyBatches 10 [(["q"], ⟨some (.clusters [⟨"q", 1⟩]), some ⟨1, 2, 3⟩⟩)]
        = .ok [⟨[⟨"q", 1⟩], ⟨1, 2, 3,
            ((1 : ℕ) : ℚ)/1000 * prompt_per_1k + ((2 : ℕ) : ℚ)/1000 * completion_per_1k⟩⟩] ∧
    (combineResults 10 [⟨[⟨"q", 1⟩], ⟨1, 2, 3,
            ((1 : ℕ) : ℚ)/1000 * prompt_per_1k + ((2 : ℕ) : ℚ)/1000 * completion_per_1k⟩⟩]).usage
      = usageSumSpec [⟨[⟨"q", 1⟩], ⟨1, 2, 3,
            ((1 : ℕ) : ℚ)/1000 * prompt_per_1k + ((2 : ℕ) : ℚ)/1000 * completion_per_1k⟩⟩] :=
  ⟨rfl,
    (final_usage_sums_kept_batches 10 [(["q"], ⟨some (.clusters [⟨"q", 1⟩]), some ⟨1, 2, 3⟩⟩)]
      [⟨[⟨"q", 1⟩], ⟨1, 2, 3,
          ((1 : ℕ) : ℚ)/1000 * prompt_per_1k + ((2 : ℕ) : ℚ)/1000 * completion_per_1k⟩⟩]
      rfl).2.1⟩

theorem mem_keys_bump (m : List (String × Nat)) (k c : _) (x : String) :
    x ∈ (bump m k c).map Prod.fst ↔ x ∈ m.map Prod.fst ∨ x = k := by
  induction m with
  | nil => simp [bump]
  | cons e rest ih =>
    obtain ⟨k', c'⟩ := e
    by_cases h : k' = k
    · subst h
      have hb : bump ((k', c') :: rest) k' c = (k', c' + c) :: rest := by
        simp [bump]
      rw [hb]
      simp only [List.map_cons, List.mem_cons]
      tauto
    · simp only [bump, if_neg h, List.map_cons, List.mem_cons, ih]
      tauto

theorem nodupKeys_bump (m : List (String × Nat)) (k : String) (c : Nat)
    (h : nodupKeys m) : nodupKeys (bump m k c) := by
  induction m with
  | nil => simp [nodupKeys, bump]
  | cons e rest ih =>
    obtain ⟨k', c'⟩ := e
    unfold nodupKeys at h
    rw [List.map_cons, List.nodup_cons] at h
    obtain ⟨hk', hrest⟩ := h
    by_cases hk : k' = k
    · unfold nodupKeys
      simp only [bump, if_pos hk, List.map_cons, List.nodup_cons]
      exact ⟨hk', hrest⟩
    · unfold nodupKeys
      simp only [bump, if_neg hk, List.map_cons, List.nodup_cons]
      refine ⟨?_, ih hrest⟩
      rw [mem_keys_bump]
      rintro (hmem | heq)
      · exact hk' hmem
      · exact hk heq

theorem bump_perm (k : String) (c : Nat) :
    ∀ {m m' : List (String × Nat)}, m.Perm m' → nodupKeys m →
      (bump m k c).Perm (bump m' k c) := by
  intro m m' h
  induction h with
  | nil => intro _; exact List.Perm.refl _
  | cons a h ih =>
    intro hm
    obtain ⟨ka, ca⟩ := a
    unfold nodupKeys at hm
    rw [List.map_cons, List.nodup_cons] at hm
    by_cases hk : ka = k
    · simp only [bump, if_pos hk]
      exact List.Perm.cons _ h
    · simp only [bump, if_neg hk]
      exact List.Perm.cons _ (ih hm.2)
  | swap x y t =>
    intro hm
    obtain ⟨kx, cx⟩ := x
    obtain ⟨ky, cy⟩ := y
    have hkk : ¬ ky = kx := by
      unfold nodupKeys at hm
      simp only [List.map_cons, List.nodup_cons, List.mem_cons] at hm
      exact fun he => hm.1 (Or.inl he)
    by_cases hky : ky = k
    · have hkx : ¬ kx = k := fun he => hkk (hky.trans he.symm)
      simp only [bump, if_pos hky, if_neg hkx]
      exact List.Perm.swap _ _ _
    · by_cases hkx : kx = k
      · simp only [bump, if_pos hkx, if_neg hky]
        exact List.Perm.swap _ _ _
      · simp only [bump, if_neg hky, if_neg hkx]
        exact List.Perm.swap _ _ _
  | trans h1 h2 ih1 ih2 =>
    intro hm
    have hm2 : nodupKeys _ := (h1.map Prod.fst).nodup hm
    exact (ih1 hm).trans (ih2 hm2)

theorem bump_bump_same (m : List (String × Nat)) (k : String) (c1 c2 : Nat) :
    bump (bump m k c1) k c2 = bump (bump m k c2) k c1 := by
  induction m with
  | nil => simp [bump, Nat.add_comm]
  | cons e rest ih =>
    obtain ⟨k', c'⟩ := e
    by_cases h : k' = k
    · simp only [bump, if_pos h]
      rw [Nat.add_right_comm]
    · simp only [bump, if_neg h]
      rw [ih]

theorem bump_bump_comm (m : List (String × Nat)) (k1 k2 : String) (c1 c2 : Nat) :
    (bump (bump m k1 c1) k2 c2).Perm (bump (bump m k2 c2) k1 c1) := by
  by_cases h12 : k1 = k2
  · subst h12
    rw [bump_bump_same]
  · induction m with
    | nil =>
      have h21 : ¬ k2 = k1 := fun he => h12 he.symm
      simp only [bump, if_neg h12, if_neg h21]
      exact List.Perm.swap _ _ _
    | cons e rest ih =>
      obtain ⟨k', c'⟩ := e
      by_cases h1 : k' = k1
      · have h2 : ¬ k' = k2 := fun he => h12 (h1.symm.trans he)
        simp only [bump, if_pos h1, if_neg h2]
        exact List.Perm.refl _
      · by_cases h2 : k' = k2
        · simp only [bump, if_neg h1, if_pos h2]
          exact List.Perm.refl _
        · simp only [bump, if_neg h1, if_neg h2]
          exact List.Perm.cons _ ih

theorem foldl_bump_nodup (es : List (String × Nat)) :
    ∀ m, nodupKeys m → nodupKeys (es.foldl bumpStep m) := by
  induction es with
  | nil => intro m hm; exact hm
  | cons e rest ih =>
    intro m hm
    rw [List.foldl_cons]
    exact ih _ (nodupKeys_bump m e.1 e.2 hm)

theorem foldl_bump_acc_perm (es : List (String × Nat)) :
    ∀ {m m'}, m.Perm m' → nodupKeys m →
      (es.foldl bumpStep m).Perm (es.foldl bumpStep m') := by
  induction es with
  | nil => intro m m' h _; exact h
  | cons e rest ih =>
    intro m m' h hm
    rw [List.foldl_cons, List.foldl_cons]
    exact ih (bump_perm e.1 e.2 h hm) (nodupKeys_bump m e.1 e.2 hm)

theorem foldl_bump_perm_entries :
    ∀ {es1 es2 : List (String × Nat)}, es1.Perm es2 →
      ∀ m, nodupKeys m → (es1.foldl bumpStep m).Perm (es2.foldl bumpStep m) := by
  intro es1 es2 h
  induction h with
  | nil => intro m _; exact List.Perm.refl _
  | cons e h ih =>
    intro m hm
    rw [List.foldl_cons, List.foldl_cons]
    exact ih _ (nodupKeys_bump m e.1 e.2 hm)
  | swap x y t =>
    intro m hm
    rw [List.foldl_cons, List.foldl_cons, List.foldl_cons, List.foldl_cons]
    have hyx : (bumpStep (bumpStep m y) x).Perm (bumpStep (bumpStep m x) y) :=
      bump_bump_comm m y.1 x.1 y.2 x.2
    exact foldl_bump_acc_perm t hyx
      (nodupKeys_bump _ x.1 x.2 (nodupKeys_bump m y.1 y.2 hm))
  | trans h1 h2 ih1 ih2 =>
    intro m hm
    exact (ih1 m hm).trans (ih2 m hm)

theorem allEntries_perm {l1 l2 : List ClusteringResult} (h : l1.Perm l2) :
    (allEntries l1).Perm (allEntries l2) :=
  (h.map entriesOf).flatten

theorem buildMap_perm {l1 l2 : List ClusteringResult} (h : l1.Perm l2) :
    (buildMap l1).Perm (buildMap l2) :=
  foldl_bump_perm_entries (allEntries_perm h) [] (by simp [nodupKeys])

theorem insertionSort_eq_of_perm {a b : List QuestionFrequency} (h : a.Perm b) :
    List.insertionSort qle a = List.insertionSort qle b :=
  List.eq_of_perm_of_sorted
    ((List.perm_insertionSort qle a).trans (h.trans (List.perm_insertionSort qle b).symm))
    (List.sorted_insertionSort qle a) (List.sorted_insertionSort qle b)

/-- C6: aggregating the same per-batch results in any processing order
yields the same aggregated result: the merged question counts coincide
(the sorted, truncated question list is identical) and the summed usage
totals coincide. -/
theorem aggregation_order_invariant (topN : Nat) (l1 l2 : List ClusteringResult)
    (h : l1.Perm l2) : combineResults topN l1 = combineResults topN l2 := by
  unfold combineResults
  refine ClusteringResult.ext ?_ ?_
  · show sortTruncate topN _ = sortTruncate topN _
    unfold sortTruncate
    rw [insertionSort_eq_of_perm ((buildMap_perm h).map _)]
  · show combinedUsage l1 = combinedUsage l2
    rw [combinedUsage_eq_sum, combinedUsage_eq_sum]
    unfold usageSumSpec
    exact UsageAccount.ext ((h.map _).sum_eq) ((h.map _).sum_eq) ((h.map _).sum_eq)
      ((h.map _).sum_eq)

theorem aggregation_order_invariant_witness :
    ([(⟨[⟨"a", 1⟩], zeroUsage⟩ : ClusteringResult), ⟨[⟨"b", 2⟩], zeroUsage⟩].Perm
        [⟨[⟨"b", 2⟩], zeroUsage⟩, ⟨[⟨"a", 1⟩], zeroUsage⟩]) ∧
    combineResults 10 [⟨[⟨"a", 1⟩], zeroUsage⟩, ⟨[⟨"b", 2⟩], zeroUsage⟩]
        = combineResults 10 [⟨[⟨"b", 2⟩], zeroUsage⟩, ⟨[⟨"a", 1⟩], zeroUsage⟩] :=
  ⟨List.Perm.swap (⟨[⟨"b", 2⟩], zeroUsage⟩ : ClusteringResult)
      (⟨[⟨"a", 1⟩], zeroUsage⟩ : ClusteringResult) [],
    aggregation_order_invariant 10 _ _
      (List.Perm.swap (⟨[⟨"b", 2⟩], zeroUsage⟩ : ClusteringResult)
        (⟨[⟨"a", 1⟩], zeroUsage⟩ : ClusteringResult) [])⟩

end TopQuestions
